import Mathlib

/-!
Shallow embedding of the `cast` package (table normalization, structural
compression and multi-way diff of CEOS-ARD specification tables).

Cell values are modelled by `Val`: a scalar string, the "missing" marker
(pandas NaN), or a tuple of values (produced by `groupby(...).agg(tuple)`).
A row is a list of cells, a table a list of rows; column positions follow the
fixed schema of the source (`item` at 0, `item_name` at 1, the
requirement/attribute columns from 2 on).  Fallible functions return
`Except String`, carrying the message of the `ValueError` the Python code
raises (or the kind of built-in exception that escapes).
-/

set_option maxRecDepth 4000

namespace Cast

inductive Val where
  | missing : Val
  | str : String → Val
  | tup : List Val → Val

mutual

def valDecEq : (a b : Val) → Decidable (a = b)
  | Val.missing, Val.missing => isTrue rfl
  | Val.missing, Val.str _ => isFalse (fun h => Val.noConfusion h)
  | Val.missing, Val.tup _ => isFalse (fun h => Val.noConfusion h)
  | Val.str _, Val.missing => isFalse (fun h => Val.noConfusion h)
  | Val.str _, Val.tup _ => isFalse (fun h => Val.noConfusion h)
  | Val.tup _, Val.missing => isFalse (fun h => Val.noConfusion h)
  | Val.tup _, Val.str _ => isFalse (fun h => Val.noConfusion h)
  | Val.str a, Val.str b =>
    if h : a = b then isTrue (congrArg Val.str h)
    else isFalse (fun hh => h (by injection hh))
  | Val.tup a, Val.tup b =>
    match valDecEqList a b with
    | isTrue h => isTrue (congrArg Val.tup h)
    | isFalse h => isFalse (fun hh => h (by injection hh))

def valDecEqList : (a b : List Val) → Decidable (a = b)
  | [], [] => isTrue rfl
  | [], _ :: _ => isFalse (fun h => List.noConfusion h)
  | _ :: _, [] => isFalse (fun h => List.noConfusion h)
  | a :: as, b :: bs =>
    match valDecEq a b with
    | isFalse h1 => isFalse (fun hh => h1 (by injection hh))
    | isTrue h1 =>
      match valDecEqList as bs with
      | isTrue h2 => isTrue (by rw [h1, h2])
      | isFalse h2 => isFalse (fun hh => h2 (by injection hh))

end

instance : DecidableEq Val := valDecEq

instance exceptDecEq {e a : Type} [DecidableEq e] [DecidableEq a] :
    DecidableEq (Except e a) := fun x y =>
  match x, y with
  | Except.error u, Except.error v =>
    if h : u = v then isTrue (by rw [h]) else isFalse (fun hh => h (by injection hh))
  | Except.error _, Except.ok _ => isFalse (fun hh => Except.noConfusion hh)
  | Except.ok _, Except.error _ => isFalse (fun hh => Except.noConfusion hh)
  | Except.ok u, Except.ok v =>
    if h : u = v then isTrue (by rw [h]) else isFalse (fun hh => h (by injection hh))

abbrev Row := List Val

abbrev Table := List Row

/-- `pd.isna` on a scalar cell. -/
def isna : Val → Bool
  | Val.missing => true
  | _ => false

/-- Column 0 of a row (the `item` column). -/
def col0 (r : Row) : Val := r.headD Val.missing

/-- `df.isna().all(axis=1)` for one row (vacuously true for a zero-column row,
as in pandas). -/
def allNaRow (r : Row) : Bool := r.all isna

/-- Python `str(x)` for the scalar cells that occur in raw tables
(`str(nan) = "nan"`; the exact rendering of a tuple is never observed because
raw cells are scalars). -/
def pyStr : Val → String
  | Val.missing => "nan"
  | Val.str s => s
  | Val.tup _ => "(tuple)"

/-- A string matching the regex `^\s*$` (empty or whitespace-only), checked
over its character sequence. -/
def isWhitespaceOnly (s : String) : Bool := s.data.all (fun c => c.isWhitespace)

/-- `df.replace(r'^\s*$', np.NaN, regex=True)` on one cell: whitespace-only
strings become the missing marker, everything else is untouched. -/
def blankCell : Val → Val
  | Val.str s => if isWhitespaceOnly s then Val.missing else Val.str s
  | v => v

/-- `df.iloc[1:, 0].first_valid_index()`: the first index `i ≥ 1` whose
column-0 cell is not missing (labels are the positional RangeIndex). -/
def firstValidIdx (rows : Table) : Option Nat :=
  (List.range rows.length).find? (fun i => decide (1 ≤ i) && !(isna (col0 (rows.getD i []))))

/-- `df.iloc[:, 0].last_valid_index()`. -/
def lastValidIdx (rows : Table) : Option Nat :=
  ((List.range rows.length).filter (fun i => !(isna (col0 (rows.getD i []))))).getLast?

/-- Index of the last entirely-missing row of the whole frame
(`df[df.isna().all(axis=1)].tail(1).index[0]`). -/
def lastAllNaIdx (rows : Table) : Option Nat :=
  ((List.range rows.length).filter (fun i => allNaRow (rows.getD i []))).getLast?

/-- `df.iloc[:, 0].fillna(method='ffill')`: forward-fill the column-0 cell,
threading the last non-missing value seen so far. -/
def ffill0 (last : Option Val) : Table → Table
  | [] => []
  | r :: rs =>
    match r with
    | [] => [] :: ffill0 last rs
    | c :: rest =>
      if isna c then (last.getD Val.missing :: rest) :: ffill0 last rs
      else (c :: rest) :: ffill0 (some c) rs

/-- The `last_row` computation of `truncate_and_ffill`: when an
entirely-missing row exists at or after the last valid item index, the row
before the frame's last entirely-missing row; otherwise `df.index[-1]`,
which raises `IndexError` on an empty frame. -/
def truncLastRow (rows : Table) : Except String Int :=
  if ((List.range rows.length).filter
        (fun i => decide ((lastValidIdx rows).getD 0 ≤ i))).any
      (fun i => allNaRow (rows.getD i [])) then
    Except.ok (((lastAllNaIdx rows).getD 0 : Int) - 1)
  else if rows.isEmpty then
    Except.error "IndexError: index -1 is out of bounds"
  else
    Except.ok ((rows.length : Int) - 1)

/-- The rest of the per-section body of `truncate_and_ffill` once `first_row`
and `last_row` are fixed: label-slice `df.loc[first_row:last_row]` (a `None`
first label slices from the top), drop all-missing rows, forward-fill the
item column, stringify it, and blank whitespace-only cells. -/
def truncBody (rows : Table) (firstRow : Nat) (lastRow : Int) : Table :=
  ((ffill0 none
      ((((List.range rows.length).filter
            (fun i => decide (firstRow ≤ i) && decide ((i : Int) ≤ lastRow))).map
          (fun i => rows.getD i [])).filter
        (fun r => !(allNaRow r)))).map
    (fun r =>
      match r with
      | [] => []
      | c :: rest => Val.str (pyStr c) :: rest)).map
    (fun r => r.map blankCell)

/-- One section of `truncate_and_ffill` (the loop body of
`cast/convert.py::truncate_and_ffill`). -/
def truncOne (rows : Table) : Except String Table :=
  (truncLastRow rows).map (truncBody rows ((firstValidIdx rows).getD 0))

/-- `cast/convert.py::truncate_and_ffill` over the section dictionary
(an association list of section name to table, preserving dict order). -/
def truncate_and_ffill (d : List (String × Table)) : Except String (List (String × Table)) :=
  d.mapM (fun p => (truncOne p.2).map (fun t => (p.1, t)))

/-- Total comparison used to model the ascending key sort done by
`df.groupby('item')` (pandas `sort=True`).  Group keys are canonicalized
strings, compared code-point-lexicographically exactly as Python compares
`str`; the remaining cases only make the comparison total (pandas would raise
`TypeError` on mixed-type or tuple keys, which never occur after
normalization). -/
def valCmp : Val → Val → Ordering
  | Val.missing, Val.missing => Ordering.eq
  | Val.missing, _ => Ordering.lt
  | _, Val.missing => Ordering.gt
  | Val.str a, Val.str b => compare a b
  | Val.str _, Val.tup _ => Ordering.lt
  | Val.tup _, Val.str _ => Ordering.gt
  | Val.tup _, Val.tup _ => Ordering.eq

def valLe (a b : Val) : Bool := !(valCmp a b == Ordering.gt)

def valLt (a b : Val) : Bool := valCmp a b == Ordering.lt

def insertSorted (x : Val) : List Val → List Val
  | [] => [x]
  | y :: ys => if valLe x y then x :: y :: ys else y :: insertSorted x ys

/-- Ascending sort of the group keys (insertion sort; agrees with Python's
sort on the string keys that occur). -/
def sortVals (l : List Val) : List Val := l.foldr insertSorted []

/-- Unique values keeping the first occurrence (`pandas.Index` set
operations return unique labels). -/
def dedupFirst : List Val → List Val
  | [] => []
  | a :: as => a :: (dedupFirst as).filter (fun x => !(x == a))

/-- Is this cell a Python tuple? -/
def isTup : Val → Bool
  | Val.tup _ => true
  | _ => false

def tupLen : Val → Nat
  | Val.tup l => l.length
  | _ => 0

/-- `pd.isna(elem[0])` for a tuple cell (tuples built by `agg` are never
empty, so the empty-tuple case is arbitrary). -/
def tupFirstNa : Val → Bool
  | Val.tup (a :: _) => isna a
  | _ => false

/-- `x[1:]` on a tuple cell. -/
def tupTail : Val → Val
  | Val.tup l => Val.tup l.tail
  | v => v

/-- Python truthiness of the cell values this code tests (`float('nan')` is
truthy, `""` and `()` are falsy).  The `None` a previous cleanup may have
produced is identified with the missing marker, which is how every
downstream pandas operation treats it. -/
def pyTruthy : Val → Bool
  | Val.missing => true
  | Val.str s => decide (s ≠ "")
  | Val.tup l => decide (l ≠ [])

/-- `x[0] if x[0] else None` applied to the aggregated `item_name` tuple. -/
def itemNameClean : Val → Val
  | Val.tup (a :: _) => if pyTruthy a then a else Val.missing
  | v => v

/-- Replace the cell at position `n` of a row. -/
def modifyAt (f : Val → Val) : Nat → Row → Row
  | _, [] => []
  | 0, c :: rest => f c :: rest
  | n + 1, c :: rest => c :: modifyAt f n rest

/-- The per-row body of `_remove_first_elem_per_row`: check that all cells
from `colStart` on are tuples of one common length, then drop each tuple's
first element when the row has more than one grouped sub-row and every
tuple's first element is missing. -/
def checkTrimRow (colStart i : Nat) (r : Row) : Except String Row :=
  if !((r.drop colStart).all isTup) then
    Except.error ("Row " ++ toString i ++ " (item " ++ pyStr (col0 r) ++
      ") contains non-tuple elements.")
  else if !(((r.drop colStart).map tupLen).all
      (fun n => n == ((r.drop colStart).map tupLen).headD 0)) then
    Except.error ("Tuples in row " ++ toString i ++ " (item " ++ pyStr (col0 r) ++
      ") have different lengths.")
  else if ((r.drop colStart).map tupLen).all (fun n => decide (1 < n)) &&
      (r.drop colStart).all tupFirstNa then
    Except.ok (r.take colStart ++ ((r.drop colStart).map tupTail))
  else
    Except.ok r

def removeFirstAux (colStart : Nat) : Nat → Table → Except String Table
  | _, [] => Except.ok []
  | i, r :: rs => do
    let r2 ← checkTrimRow colStart i r
    let rest ← removeFirstAux colStart (i + 1) rs
    pure (r2 :: rest)

/-- `cast/convert.py::_remove_first_elem_per_row` (rows are visited in order
and the first inconsistent row raises, so the row-by-row in-place mutation is
equivalent to this pure pass). -/
def remove_first_elem_per_row (colStart : Nat) (df : Table) : Except String Table :=
  removeFirstAux colStart 0 df

/-- The aggregated row `df.groupby('item').agg(lambda x: tuple(x))` produces
for key `k` in a table of width `w` (after `reset_index`, `item` is back at
position 0 and the remaining columns hold the group's cells as tuples in row
order). -/
def aggRow (t : Table) (w : Nat) (k : Val) : Row :=
  k :: (List.range (w - 1)).map (fun j =>
    Val.tup ((t.filter (fun r => col0 r == k)).map (fun r => r.getD (j + 1) Val.missing)))

/-- One section of `cast/convert.py::compress_structure`: group by the
`item` column (pandas sorts the unique keys ascending and silently drops
missing keys), aggregate every other column into tuples, keep only the first
element of the `item_name` tuple, then trim the placeholder first element.
The source's check that column `item_name` sits at index 1 is a schema check
on column labels; the embedding is positional, with `item_name` at index 1 by
construction. -/
def compressOne (t : Table) : Except String Table :=
  remove_first_elem_per_row 2
    (((sortVals (dedupFirst ((t.map col0).filter (fun v => !(isna v))))).map
        (aggRow t (t.headD []).length)).map
      (modifyAt itemNameClean 1))

/-- `cast/convert.py::compress_structure` over the section dictionary. -/
def compress_structure (d : List (String × Table)) : Except String (List (String × Table)) :=
  d.mapM (fun p => (compressOne p.2).map (fun t => (p.1, t)))

/-- `cast/convert.py::convert_cast_df_dict`. -/
def convert_cast_df_dict (d : List (String × Table)) : Except String (List (String × Table)) := do
  compress_structure (← truncate_and_ffill d)

/-! ## The differ (`cast/compare.py::by_item_names`)

`df.set_index('item_name', inplace=True)` makes `item_name` the row label of
every per-section operation, so rows are keyed by the `item_name` cell
(position 1) and the remaining columns are `item` (position 0) and the value
columns (positions 2 and up). -/

/-- The row label after `set_index('item_name')`. -/
def rowKey (r : Row) : Val := r.getD 1 Val.missing

/-- The `item` cell, the single column kept by `df.columns[:1]` after
`item_name` moved into the index. -/
def rowItem (r : Row) : Val := r.getD 0 Val.missing

/-- The requirement/attribute cells (`df.columns[1:]` after `set_index`). -/
def rowVals (r : Row) : List Val := r.drop 2

/-- One row of the combined per-section comparison frame: MultiIndex level 0
is the `item_name` label, level 1 the spec identity (turned into the `spec`
column by `reset_index(level=1)`), plus the re-inserted `item` column and the
compared value columns. -/
structure CRow where
  key : Val
  spec : String
  item : Val
  vals : List Val
deriving DecidableEq

/-- `DataFrame.compare` with `keep_shape=True, keep_equal=False`: a cell is
blanked to missing where the two sides are equal (pandas treats two NaNs in
the same location as equal) and keeps this side's value where they differ. -/
def blankEq (a b : List Val) : List Val :=
  List.zipWith (fun x y => if x = y then Val.missing else x) a b

/-- First row carrying label `k` (labels are unique in the intended inputs;
pandas indexing by a repeated label would not round-trip through `compare`). -/
def findByKey (t : Table) (k : Val) : Row :=
  (t.find? (fun r => rowKey r == k)).getD []

/-- The combined per-section frame built from the two `compare` calls:
`common` is `df1.index.intersection(df2.index)` (unique labels, `df1` order),
and for each common label the frame holds one row per spec identity
(`align_axis=0`), carrying the `item` cell kept verbatim (`keep_equal=True`)
and the blanked value cells (`keep_equal=False`). -/
def combinedRows (spec1 spec2 : String) (t1 t2 : Table) : List CRow :=
  ((dedupFirst (t1.map rowKey)).filter (fun k => decide (k ∈ t2.map rowKey))).flatMap
    (fun k =>
      [ ⟨k, spec1, rowItem (findByKey t1 k),
          blankEq (rowVals (findByKey t1 k)) (rowVals (findByKey t2 k))⟩,
        ⟨k, spec2, rowItem (findByKey t2 k),
          blankEq (rowVals (findByKey t2 k)) (rowVals (findByKey t1 k))⟩ ])

/-- `compare_same_diff.duplicated(subset=compare_same_diff.columns[1:],
keep=False)`: a row is marked when at least two rows of the frame share its
value cells (the `item` column at position 0 and the MultiIndex labels are
not part of the subset; NaNs count as equal). -/
def isDupVal (combined : List CRow) (r : CRow) : Bool :=
  decide (2 ≤ (combined.filter (fun q => q.vals == r.vals)).length)

/-- Per-section result buckets.  `same_same_cols` records which value-column
positions survive `dropna(axis=1, how='all')` on the `same_same` frame; row
order everywhere follows the source frames (`Index.difference` re-sorts the
`only` labels, which permutes rows within those buckets but changes no
content; no claim concerns bucket row order). -/
structure SectionBuckets where
  same_same_rows : List CRow
  same_same_cols : List Nat
  same_diff : List CRow
  only_1 : List (Val × Val)
  only_2 : List (Val × Val)

/-- The per-section body of the loop in `cast/compare.py::by_item_names`. -/
def compareSection (spec1 spec2 : String) (t1 t2 : Table) : SectionBuckets :=
  let names1 := t1.map rowKey
  let names2 := t2.map rowKey
  let only1 := (t1.filter (fun r => decide (rowKey r ∉ names2))).map
    (fun r => (rowKey r, rowItem r))
  let only2 := (t2.filter (fun r => decide (rowKey r ∉ names1))).map
    (fun r => (rowKey r, rowItem r))
  let combined := combinedRows spec1 spec2 t1 t2
  let sd := combined.filter (fun r => !(isDupVal combined r))
  let ss := combined.filter (fun r => isDupVal combined r)
  let ncols := (ss.map (fun r => r.vals.length)).foldr Nat.max 0
  let cols := (List.range ncols).filter
    (fun j => ss.any (fun r => !(isna (r.vals.getD j Val.missing))))
  ⟨ss, cols, sd, only1, only2⟩

/-- A loaded document: the compressed section dictionary plus the spec
identity tag (`CASTMeta.data` and `CASTMeta.spec` in `cast/load.py`). -/
structure CASTMeta where
  data : List (String × Table)
  spec : String

/-- The concatenated result buckets (`_concat_df_lists`).  The per-section
`same_same` column drops are a per-frame presentation detail that
`pd.concat` re-aligns; the concatenated buckets keep the full rows. -/
structure CompareResult where
  same_same : List CRow
  same_diff : List CRow
  only_1 : List (Val × Val)
  only_2 : List (Val × Val)

/-- The symmetric difference of the two section-name sets, as the list
`set(keys1) ^ set(keys2)` enumerates it (membership is what the claims
observe; Python's set iteration order is unspecified). -/
def symmDiff (k1 k2 : List String) : List String :=
  k1.filter (fun k => decide (k ∉ k2)) ++ k2.filter (fun k => decide (k ∉ k1))

/-- `cast/compare.py::by_item_names` (the optional CSV export is I/O and out
of scope).  The section check runs before any per-section work, so a section
mismatch yields the error and no partial buckets. -/
def by_item_names (cast1 cast2 : CASTMeta) : Except (List String) CompareResult :=
  let k1 := cast1.data.map Prod.fst
  let k2 := cast2.data.map Prod.fst
  let kd := symmDiff k1 k2
  if kd.isEmpty then
    let bs := cast1.data.map (fun p =>
      compareSection cast1.spec cast2.spec p.2 ((cast2.data.lookup p.1).getD []))
    Except.ok
      ⟨(bs.map (fun b => b.same_same_rows)).flatten,
       (bs.map (fun b => b.same_diff)).flatten,
       (bs.map (fun b => b.only_1)).flatten,
       (bs.map (fun b => b.only_2)).flatten⟩
  else
    Except.error kd

/-! ## Claim-side predicates -/

/-- Strictly ascending item keys (adjacent comparison).  A table produced by
`compress_structure` has its keys in this form, since `groupby` sorts the
unique keys. -/
def strictSortedB : List Val → Bool
  | [] => true
  | [_] => true
  | a :: b :: rest => valLt a b && strictSortedB (b :: rest)

/-- The shape invariant `_remove_first_elem_per_row` enforces on one row:
every cell from `colStart` on is a tuple and all those tuples share one
length. -/
def rowShapeOk (colStart : Nat) (r : Row) : Bool :=
  ((r.drop colStart).all isTup) &&
    ((r.drop colStart).map tupLen).all
      (fun n => n == ((r.drop colStart).map tupLen).headD 0)

/-- A cell holding an empty or whitespace-only string (the cells
`df.replace(r'^\s*$', np.NaN, regex=True)` rewrites). -/
def isBlankStrVal : Val → Bool
  | Val.str s => isWhitespaceOnly s
  | _ => false

/-- Substring test (does `needle` occur contiguously in `hay`?), used to
state what an error message does and does not name. -/
def strContains (hay needle : String) : Bool :=
  (List.range (hay.toList.length + 1)).any
    (fun i => ((hay.toList.drop i).take needle.toList.length) == needle.toList)

/-! ## Concrete tables for witnesses and counterexamples -/

/-- Left table: item `"1"` is labelled `"A"`. -/
def exC1Left : Table := [[Val.str "1", Val.str "A", Val.str "x"]]

/-- Right table: the same item `"1"` is labelled `"B"`. -/
def exC1Right : Table := [[Val.str "1", Val.str "B", Val.str "x"]]

/-- Left table for the bucket-split scenario: items `X` and `Y` both carry
value `"a"`. -/
def exSplitLeft : Table :=
  [[Val.str "X", Val.str "X", Val.str "a"], [Val.str "Y", Val.str "Y", Val.str "a"]]

/-- Right table for the bucket-split scenario: `X` carries `"b"`, `Y` carries
`"c"`, so only the two left-side rows are value-duplicates. -/
def exSplitRight : Table :=
  [[Val.str "X", Val.str "X", Val.str "b"], [Val.str "Y", Val.str "Y", Val.str "c"]]

/-- Left table of the spec's dedup scenario (`X` and `Y` both `"5m","pixel"`). -/
def exDedupLeft : Table :=
  [[Val.str "X", Val.str "X", Val.str "5m", Val.str "pixel"],
   [Val.str "Y", Val.str "Y", Val.str "5m", Val.str "pixel"]]

/-- Right table of the spec's dedup scenario (`X` and `Y` both `"10m","pixel"`). -/
def exDedupRight : Table :=
  [[Val.str "X", Val.str "X", Val.str "10m", Val.str "pixel"],
   [Val.str "Y", Val.str "Y", Val.str "10m", Val.str "pixel"]]

/-- An already-compressed one-row table (distinct key, tuple value cell). -/
def exCompressed : Table := [[Val.str "a", Val.str "n", Val.tup [Val.str "x"]]]

/-- The spec's placeholder-trim scenario: one item over two physical rows,
first sub-row all missing in the attribute columns. -/
def exTrimTable : Table :=
  [[Val.str "1", Val.str "A", Val.missing, Val.missing],
   [Val.str "1", Val.missing, Val.str "numeric", Val.str "radiometric"]]

/-- A grouped row with tuples of different lengths (shape violation). -/
def exBadShape : Table :=
  [[Val.str "i1", Val.str "n", Val.tup [Val.str "a"], Val.tup [Val.str "b", Val.str "c"]]]

/-- A section whose item-key column is entirely missing but whose rows are
not entirely missing. -/
def exEmptyItems : Table := [[Val.missing, Val.str "x"]]

/-- A section whose third row's item-key cell is a whitespace-only string
(row 0 is the sub-header row the normalizer always skips). -/
def exWhitespaceItem : Table :=
  [[Val.str "0", Val.str "H"], [Val.str "1", Val.str "A"], [Val.str " ", Val.str "B"]]

/-- Two one-row tables equal on every value cell. -/
def exEqualTable : Table := [[Val.str "1", Val.str "A", Val.str "x", Val.str "y"]]

/-- Table set with sections `{A, B}`. -/
def exSecAB : CASTMeta := ⟨[("A", []), ("B", [])], "s1"⟩

/-- Table set with sections `{A, C}`. -/
def exSecAC : CASTMeta := ⟨[("A", []), ("C", [])], "s2"⟩

/-! ## List toolkit -/

theorem getD_mem {α : Type} {l : List α} {i : Nat} (d : α) (h : i < l.length) :
    l.getD i d ∈ l := by
  induction l generalizing i with
  | nil => simp at h
  | cons a as ih =>
    cases i with
    | zero => simp [List.getD]
    | succ n =>
      simp only [List.getD_cons_succ]
      exact List.mem_cons_of_mem a (ih (by simpa using h))

theorem range_map_getD {α β : Type} (f : α → β) (d : α) :
    ∀ (l : List α), (List.range l.length).map (fun j => f (l.getD j d)) = l.map f := by
  intro l
  induction l with
  | nil => simp
  | cons a as ih =>
    rw [List.length_cons, List.range_succ_eq_map, List.map_cons, List.map_map]
    refine congrArg₂ _ (by simp [List.getD]) ?_
    have hc : ((fun j => f ((a :: as).getD j d)) ∘ Nat.succ) = fun j => f (as.getD j d) := by
      funext j
      simp [Function.comp]
    rw [hc, ih]

theorem range_map_getD_self {α : Type} (d : α) (l : List α) :
    (List.range l.length).map (fun j => l.getD j d) = l := by
  have h := range_map_getD id d l
  simpa using h

theorem mem_dedupFirst {k : Val} : ∀ {l : List Val}, k ∈ dedupFirst l ↔ k ∈ l := by
  intro l
  induction l with
  | nil => simp [dedupFirst]
  | cons a as ih =>
    by_cases hk : k = a
    · subst hk
      simp [dedupFirst]
    · simp only [dedupFirst, List.mem_cons, List.mem_filter, ih, beq_iff_eq, Bool.not_eq_eq_eq_not,
        Bool.not_true, decide_eq_false_iff_not]
      constructor
      · rintro (h | ⟨h, -⟩)
        · exact Or.inl h
        · exact Or.inr h
      · rintro (h | h)
        · exact Or.inl h
        · exact Or.inr ⟨h, by simpa using hk⟩

theorem nodup_dedupFirst : ∀ (l : List Val), (dedupFirst l).Nodup := by
  intro l
  induction l with
  | nil => simp [dedupFirst]
  | cons a as ih =>
    simp only [dedupFirst, List.nodup_cons]
    refine ⟨fun hmem => ?_, ih.filter _⟩
    have := (List.mem_filter.mp hmem).2
    simp at this

theorem dedupFirst_eq_self : ∀ {l : List Val}, l.Nodup → dedupFirst l = l := by
  intro l h
  induction l with
  | nil => rfl
  | cons a as ih =>
    rw [List.nodup_cons] at h
    simp only [dedupFirst, ih h.2]
    refine congrArg _ (List.filter_eq_self.mpr ?_)
    intro x hx
    have hxa : x ≠ a := fun hxa => h.1 (hxa ▸ hx)
    simp [hxa]

theorem valLe_of_valLt {a b : Val} (h : valLt a b = true) : valLe a b = true := by
  unfold valLt at h
  unfold valLe
  cases hab : valCmp a b
  · rfl
  · rw [hab] at h
    exact absurd h (by decide)
  · rw [hab] at h
    exact absurd h (by decide)

theorem sortVals_eq_self : ∀ {l : List Val}, strictSortedB l = true → sortVals l = l := by
  intro l h
  induction l with
  | nil => rfl
  | cons a as ih =>
    have htail : strictSortedB as = true := by
      cases as with
      | nil => rfl
      | cons b bs =>
        unfold strictSortedB at h
        exact (Bool.and_eq_true_iff.mp h).2
    have hs : sortVals (a :: as) = insertSorted a (sortVals as) := rfl
    rw [hs, ih htail]
    cases as with
    | nil => rfl
    | cons b bs =>
      unfold strictSortedB at h
      have hab := (Bool.and_eq_true_iff.mp h).1
      unfold insertSorted
      rw [valLe_of_valLt hab]
      simp

theorem filter_key_singleton {t : Table} {r : Row} (hnd : (t.map col0).Nodup) (hr : r ∈ t) :
    t.filter (fun x => col0 x == col0 r) = [r] := by
  induction t with
  | nil => cases hr
  | cons a as ih =>
    rw [List.map_cons, List.nodup_cons] at hnd
    rcases List.mem_cons.mp hr with rfl | hmem
    · rw [List.filter_cons_of_pos (by simp)]
      refine congrArg _ (List.filter_eq_nil_iff.mpr ?_)
      intro x hx
      have : col0 x ≠ col0 r := fun he => hnd.1 (he ▸ List.mem_map_of_mem col0 hx)
      simp [this]
    · have hne : col0 a ≠ col0 r := by
        intro he
        exact hnd.1 (he ▸ List.mem_map_of_mem col0 hmem)
      rw [List.filter_cons_of_neg (by simp [hne])]
      exact ih hnd.2 hmem

theorem findByKey_eq {t : Table} {r : Row} (hnd : (t.map rowKey).Nodup) (hr : r ∈ t) :
    findByKey t (rowKey r) = r := by
  induction t with
  | nil => cases hr
  | cons a as ih =>
    rw [List.map_cons, List.nodup_cons] at hnd
    rcases List.mem_cons.mp hr with rfl | hmem
    · simp [findByKey, List.find?_cons_of_pos]
    · have hne : rowKey a ≠ rowKey r := by
        intro he
        exact hnd.1 (he ▸ List.mem_map_of_mem rowKey hmem)
      have hprev : findByKey as (rowKey r) = r := ih hnd.2 hmem
      have hpa : (rowKey a == rowKey r) = false := by simp [hne]
      unfold findByKey at hprev ⊢
      rw [List.find?_cons]
      simp only [hpa]
      exact hprev

theorem ffill0_sameLength : ∀ (acc : Option Val) (l : Table), (ffill0 acc l).length = l.length := by
  intro acc l
  induction l generalizing acc with
  | nil => rfl
  | cons r rs ih =>
    cases r with
    | nil => simp [ffill0, ih]
    | cons c rest =>
      by_cases hc : isna c = true
      · simp [ffill0, hc, ih]
      · simp [ffill0, hc, ih]

theorem ffill0_col0P (P : Val → Prop) (hmiss : P Val.missing) :
    ∀ (l : Table) (acc : Option Val), (∀ r ∈ l, P (col0 r)) →
      (∀ a, acc = some a → P a) → ∀ r ∈ ffill0 acc l, P (col0 r) := by
  intro l
  induction l with
  | nil => intro acc _ _ r hr; cases hr
  | cons x xs ih =>
    intro acc hl hacc r hr
    cases x with
    | nil =>
      rw [show ffill0 acc ([] :: xs) = [] :: ffill0 acc xs from rfl] at hr
      rcases List.mem_cons.mp hr with rfl | hmem
      · simpa [col0] using hmiss
      · exact ih acc (fun q hq => hl q (List.mem_cons_of_mem _ hq)) hacc r hmem
    | cons c rest =>
      by_cases hc : isna c = true
      · rw [show ffill0 acc ((c :: rest) :: xs) =
            (acc.getD Val.missing :: rest) :: ffill0 acc xs from by simp [ffill0, hc]] at hr
        rcases List.mem_cons.mp hr with rfl | hmem
        · cases acc with
          | none => simpa [col0] using hmiss
          | some a => simpa [col0] using hacc a rfl
        · exact ih acc (fun q hq => hl q (List.mem_cons_of_mem _ hq)) hacc r hmem
      · rw [show ffill0 acc ((c :: rest) :: xs) =
            (c :: rest) :: ffill0 (some c) xs from by simp [ffill0, hc]] at hr
        rcases List.mem_cons.mp hr with rfl | hmem
        · exact hl (c :: rest) (List.mem_cons_self _ _)
        · refine ih (some c) (fun q hq => hl q (List.mem_cons_of_mem _ hq)) ?_ r hmem
          intro a ha
          cases ha
          simpa [col0] using hl (c :: rest) (List.mem_cons_self _ _)

theorem ffill0_ne_nil : ∀ (l : Table) (acc : Option Val), (∀ r ∈ l, r ≠ []) →
    ∀ r ∈ ffill0 acc l, r ≠ [] := by
  intro l
  induction l with
  | nil => intro acc _ r hr; cases hr
  | cons x xs ih =>
    intro acc hl r hr
    cases x with
    | nil => exact absurd rfl (hl [] (List.mem_cons_self _ _))
    | cons c rest =>
      by_cases hc : isna c = true
      · rw [show ffill0 acc ((c :: rest) :: xs) =
            (acc.getD Val.missing :: rest) :: ffill0 acc xs from by simp [ffill0, hc]] at hr
        rcases List.mem_cons.mp hr with rfl | hmem
        · simp
        · exact ih acc (fun q hq => hl q (List.mem_cons_of_mem _ hq)) r hmem
      · rw [show ffill0 acc ((c :: rest) :: xs) =
            (c :: rest) :: ffill0 (some c) xs from by simp [ffill0, hc]] at hr
        rcases List.mem_cons.mp hr with rfl | hmem
        · simp
        · exact ih (some c) (fun q hq => hl q (List.mem_cons_of_mem _ hq)) r hmem

theorem ffill0_id_of_allNaCol0 : ∀ (l : Table), (∀ r ∈ l, isna (col0 r) = true) →
    ffill0 none l = l := by
  intro l
  induction l with
  | nil => intro _; rfl
  | cons x xs ih =>
    intro hl
    have hxs := ih (fun q hq => hl q (List.mem_cons_of_mem _ hq))
    cases x with
    | nil => simp [ffill0, hxs]
    | cons c rest =>
      have hc : isna c = true := by simpa [col0] using hl (c :: rest) (List.mem_cons_self _ _)
      have hcm : c = Val.missing := by cases c <;> simp_all [isna]
      subst hcm
      simp [ffill0, isna, hxs]

theorem removeFirstAux_map_ok {α : Type} (cs : Nat) (f g : α → Row) :
    ∀ (xs : List α), (∀ x ∈ xs, ∀ i, checkTrimRow cs i (f x) = Except.ok (g x)) →
      ∀ i0, removeFirstAux cs i0 (xs.map f) = Except.ok (xs.map g) := by
  intro xs
  induction xs with
  | nil => intro _ i0; rfl
  | cons x rest ih =>
    intro h i0
    have hx := h x (List.mem_cons_self _ _) i0
    have hrest := ih (fun q hq => h q (List.mem_cons_of_mem _ hq)) (i0 + 1)
    simp only [List.map_cons, removeFirstAux, hx, hrest]
    rfl

theorem range_all_getD {α : Type} (p : α → Bool) (d : α) :
    ∀ (l : List α), (List.range l.length).all (fun j => p (l.getD j d)) = l.all p := by
  intro l
  induction l with
  | nil => simp
  | cons a as ih =>
    have hc : ((fun j => p ((a :: as).getD j d)) ∘ Nat.succ) = fun j => p (as.getD j d) := by
      funext j
      simp [Function.comp]
    rw [List.length_cons, List.range_succ_eq_map, List.all_cons, List.all_map, hc, ih]
    simp [List.getD]

/-- Behavior of the per-row shape check on a row whose cells from column 2 on
are all tuples of one length `n` (as `groupby(...).agg(tuple)` produces):
no error, and the first element of each tuple is dropped exactly when the
tuples are longer than one and every first element is missing. -/
theorem checkTrimRow_uniform (i : Nat) (r : Row) (n : Nat)
    (h : ∀ c ∈ r.drop 2, ∃ l, c = Val.tup l ∧ l.length = n) :
    checkTrimRow 2 i r =
      Except.ok (if (decide (1 < n) && (r.drop 2).all tupFirstNa) = true
        then r.take 2 ++ ((r.drop 2).map tupTail) else r) := by
  have hall : (r.drop 2).all isTup = true := by
    rw [List.all_eq_true]
    intro c hc
    rcases h c hc with ⟨l, rfl, -⟩
    rfl
  have hlen : ∀ m ∈ (r.drop 2).map tupLen, m = n := by
    intro m hm
    rcases List.mem_map.mp hm with ⟨c, hc, rfl⟩
    rcases h c hc with ⟨l, rfl, hl⟩
    simpa [tupLen] using hl
  cases hdrop : r.drop 2 with
  | nil =>
    have hr2 : r.take 2 = r := by
      refine List.take_of_length_le ?_
      have hld := congrArg List.length hdrop
      simp at hld
      omega
    by_cases h1n : 1 < n
    · simp [checkTrimRow, hdrop, hr2, h1n]
    · simp [checkTrimRow, hdrop, hr2, h1n]
  | cons c cs =>
    rw [hdrop] at hall hlen
    have hcn : tupLen c = n :=
      hlen _ (List.mem_map_of_mem _ (List.mem_cons_self _ _))
    have hcond2 : (((c :: cs).map tupLen)).all
        (fun m => m == ((c :: cs).map tupLen).headD 0) = true := by
      rw [List.all_eq_true]
      intro m hm
      rw [hlen m hm]
      simp [hcn]
    have hcond3 : ((c :: cs).map tupLen).all (fun m => decide (1 < m)) = decide (1 < n) := by
      cases hd : decide (1 < n) with
      | true =>
        rw [List.all_eq_true]
        intro m hm
        rw [hlen m hm]
        exact hd
      | false =>
        rw [List.all_eq_false]
        refine ⟨tupLen c, List.mem_map_of_mem _ (List.mem_cons_self _ _), ?_⟩
        rw [hcn, hd]
        simp
    unfold checkTrimRow
    rw [hdrop, hall, hcond2, hcond3]
    simp
    rw [apply_ite Except.ok]

theorem two_le_filter_of_two_mem {α : Type} {a b : α} {l : List α} {p : α → Bool}
    (ha : a ∈ l) (hb : b ∈ l) (hab : a ≠ b) (hpa : p a = true) (hpb : p b = true) :
    2 ≤ (l.filter p).length := by
  induction l with
  | nil => cases ha
  | cons x xs ih =>
    rcases List.mem_cons.mp ha with rfl | hamem
    · have hbmem : b ∈ xs := by
        rcases List.mem_cons.mp hb with rfl | h
        · exact absurd rfl hab
        · exact h
      rw [List.filter_cons_of_pos hpa]
      have : b ∈ xs.filter p := List.mem_filter.mpr ⟨hbmem, hpb⟩
      have hlen : 1 ≤ (xs.filter p).length := List.length_pos.mpr (List.ne_nil_of_mem this)
      simpa using Nat.succ_le_succ hlen
    · rcases List.mem_cons.mp hb with rfl | hbmem
      · rw [List.filter_cons_of_pos hpb]
        have : a ∈ xs.filter p := List.mem_filter.mpr ⟨hamem, hpa⟩
        have hlen : 1 ≤ (xs.filter p).length := List.length_pos.mpr (List.ne_nil_of_mem this)
        simpa using Nat.succ_le_succ hlen
      · have := ih hamem hbmem
        cases hpx : p x
        · rwa [List.filter_cons_of_neg (by simp [hpx])]
        · rw [List.filter_cons_of_pos hpx]
          exact Nat.le_succ_of_le this

theorem two_le_filter_of_pair {α : Type} {a b : α} {l : List α} {p : α → Bool}
    (hs : List.Sublist [a, b] l) (hpa : p a = true) (hpb : p b = true) :
    2 ≤ (l.filter p).length := by
  have hf := hs.filter p
  rw [show List.filter p [a, b] = [a, b] from by simp [hpa, hpb]] at hf
  simpa using hf.length_le

theorem blankEq_self : ∀ (v : List Val), blankEq v v = List.replicate v.length Val.missing := by
  intro v
  induction v with
  | nil => rfl
  | cons c cs ih =>
    have hstep : blankEq (c :: cs) (c :: cs) = Val.missing :: blankEq cs cs := by
      simp [blankEq]
    rw [hstep, ih, List.length_cons, List.replicate_succ]

theorem isna_iff {c : Val} : isna c = true ↔ c = Val.missing := by
  cases c <;> simp [isna]

theorem all_map_general {α β : Type} (f : α → β) (p : β → Bool) :
    ∀ (l : List α), (l.map f).all p = l.all (p ∘ f) := by
  intro l
  induction l with
  | nil => rfl
  | cons a as ih =>
    rw [List.map_cons, List.all_cons, List.all_cons, ih]
    rfl

theorem mem_insertSorted {x k : Val} : ∀ {l : List Val},
    k ∈ insertSorted x l ↔ (k = x ∨ k ∈ l) := by
  intro l
  induction l with
  | nil => simp [insertSorted]
  | cons y ys ih =>
    unfold insertSorted
    by_cases h : valLe x y = true
    · simp [h]
    · simp only [h, Bool.false_eq_true, if_false, List.mem_cons, ih]
      tauto

theorem mem_sortVals {k : Val} : ∀ {l : List Val}, k ∈ sortVals l ↔ k ∈ l := by
  intro l
  induction l with
  | nil => simp [sortVals]
  | cons a as ih =>
    rw [show sortVals (a :: as) = insertSorted a (sortVals as) from rfl, mem_insertSorted]
    simp [ih]

theorem drop_getD {α : Type} (d : α) : ∀ (l : List α) (n j : Nat),
    (l.drop n).getD j d = l.getD (n + j) d := by
  intro l
  induction l with
  | nil => intro n j; simp
  | cons a as ih =>
    intro n j
    cases n with
    | zero => simp
    | succ m =>
      rw [List.drop_succ_cons, ih m j, Nat.succ_add]
      simp

theorem filter_nonmissing_id {t : Table} (hmiss : ∀ r ∈ t, isna (col0 r) = false) :
    (t.map col0).filter (fun v => !(isna v)) = t.map col0 := by
  rw [List.filter_eq_self]
  intro v hv
  rcases List.mem_map.mp hv with ⟨r, hr, rfl⟩
  simp [hmiss r hr]

theorem aggRow_singleton {t : Table} {r : Row} (w : Nat)
    (hnd : (t.map col0).Nodup) (hr : r ∈ t) (hw : r.length = w) (hne : r ≠ []) :
    aggRow t w (col0 r) = col0 r :: r.tail.map (fun v => Val.tup [v]) := by
  unfold aggRow
  rw [filter_key_singleton hnd hr]
  cases r with
  | nil => exact absurd rfl hne
  | cons c rest =>
    have hw1 : w - 1 = rest.length := by
      simp at hw
      omega
    have hfn : (fun j => Val.tup (([c :: rest] : Table).map
        (fun x => x.getD (j + 1) Val.missing))) =
        fun j => Val.tup [rest.getD j Val.missing] := by
      funext j
      simp
    rw [hw1, hfn, range_map_getD (fun v => Val.tup [v]) Val.missing rest]
    rfl

theorem wrapRow_drop2 (f : Val → Val) :
    ∀ (r : Row), (r.take 2 ++ (r.drop 2).map f).drop 2 = (r.drop 2).map f := by
  intro r
  match r with
  | [] => rfl
  | [_] => rfl
  | _ :: _ :: _ => rfl

theorem modifyAt_clean_wrap {r : Row} (hname : pyTruthy (rowKey r) = true) (hne : r ≠ []) :
    modifyAt itemNameClean 1 (col0 r :: r.tail.map (fun v => Val.tup [v])) =
      r.take 2 ++ (r.drop 2).map (fun v => Val.tup [v]) := by
  match r with
  | [] => exact absurd rfl hne
  | [a] => rfl
  | a :: b :: rest =>
    have hb : pyTruthy b = true := by simpa [rowKey] using hname
    show a :: itemNameClean (Val.tup [b]) :: rest.map (fun v => Val.tup [v]) =
      a :: b :: rest.map (fun v => Val.tup [v])
    rw [show itemNameClean (Val.tup [b]) = b from by simp [itemNameClean, hb]]

/-- Per-key behavior of the compressor: the grouped-and-cleaned row for key
`k` passes the shape check and is trimmed exactly when the group has more
than one row and the group's first row is missing in every
attribute/requirement column. -/
theorem compress_row_spec (t : Table) (w : Nat) (k : Val) (i : Nat)
    (hw2 : 2 ≤ w)
    (huni : ∀ r ∈ t, r.length = w)
    (hgne : t.filter (fun r => col0 r == k) ≠ []) :
    checkTrimRow 2 i (modifyAt itemNameClean 1 (aggRow t w k)) =
      Except.ok
        (if 1 < (t.filter (fun r => col0 r == k)).length ∧
            (∀ c ∈ ((t.filter (fun r => col0 r == k)).headD []).drop 2, c = Val.missing) then
          k :: itemNameClean (Val.tup ((t.filter (fun r => col0 r == k)).map rowKey)) ::
            (List.range (w - 2)).map (fun j =>
              Val.tup (((t.filter (fun r => col0 r == k)).map
                (fun r => r.getD (j + 2) Val.missing)).tail))
        else
          k :: itemNameClean (Val.tup ((t.filter (fun r => col0 r == k)).map rowKey)) ::
            (List.range (w - 2)).map (fun j =>
              Val.tup ((t.filter (fun r => col0 r == k)).map
                (fun r => r.getD (j + 2) Val.missing)))) := by
  obtain ⟨g0, grest, hgeq⟩ : ∃ g0 grest, t.filter (fun r => col0 r == k) = g0 :: grest := by
    cases hgc : t.filter (fun r => col0 r == k) with
    | nil => exact absurd hgc hgne
    | cons a l => exact ⟨a, l, rfl⟩
  have hg0t : g0 ∈ t := by
    have : g0 ∈ t.filter (fun r => col0 r == k) := by
      rw [hgeq]
      exact List.mem_cons_self _ _
    exact (List.mem_filter.mp this).1
  have hg0len : g0.length = w := huni g0 hg0t
  have hsplit : List.range (w - 1) = 0 :: (List.range (w - 2)).map Nat.succ := by
    rw [show w - 1 = (w - 2) + 1 from by omega, List.range_succ_eq_map]
  have haggexp : modifyAt itemNameClean 1 (aggRow t w k) =
      k :: itemNameClean (Val.tup ((t.filter (fun r => col0 r == k)).map rowKey)) ::
        (List.range (w - 2)).map (fun j =>
          Val.tup ((t.filter (fun r => col0 r == k)).map
            (fun r => r.getD (j + 2) Val.missing))) := by
    unfold aggRow
    rw [hsplit, List.map_cons, List.map_map]
    rfl
  rw [haggexp]
  have hshape : ∀ c ∈ (k :: itemNameClean (Val.tup ((t.filter (fun r => col0 r == k)).map rowKey)) ::
      (List.range (w - 2)).map (fun j =>
        Val.tup ((t.filter (fun r => col0 r == k)).map
          (fun r => r.getD (j + 2) Val.missing)))).drop 2,
      ∃ l, c = Val.tup l ∧ l.length = (t.filter (fun r => col0 r == k)).length := by
    intro c hc
    rcases List.mem_map.mp hc with ⟨j, -, rfl⟩
    exact ⟨(t.filter (fun r => col0 r == k)).map (fun r => r.getD (j + 2) Val.missing), rfl,
      by simp⟩
  rw [checkTrimRow_uniform i _ (t.filter (fun r => col0 r == k)).length hshape]
  have hFv : (fun j => tupFirstNa (Val.tup ((t.filter (fun r => col0 r == k)).map
      (fun r => r.getD (j + 2) Val.missing)))) =
      (fun j => isna (g0.getD (j + 2) Val.missing)) := by
    funext j
    rw [hgeq]
    rfl
  have hdl : (g0.drop 2).length = w - 2 := by
    rw [List.length_drop, hg0len]
  have hgd : (fun j => isna ((g0.drop 2).getD j Val.missing)) =
      (fun j => isna (g0.getD (j + 2) Val.missing)) := by
    funext j
    rw [drop_getD, Nat.add_comm]
  have hallna : ((List.range (w - 2)).map (fun j =>
      Val.tup ((t.filter (fun r => col0 r == k)).map
        (fun r => r.getD (j + 2) Val.missing)))).all tupFirstNa =
      decide (∀ c ∈ (g0.drop 2), c = Val.missing) := by
    rw [all_map_general]
    rw [show (tupFirstNa ∘ (fun j => Val.tup ((t.filter (fun r => col0 r == k)).map
        (fun r => r.getD (j + 2) Val.missing)))) =
      (fun j => isna (g0.getD (j + 2) Val.missing)) from hFv]
    rw [← hdl, ← hgd, range_all_getD isna Val.missing (g0.drop 2)]
    cases hall : (g0.drop 2).all isna
    · rw [List.all_eq_false] at hall
      rcases hall with ⟨c, hc, hnc⟩
      symm
      rw [decide_eq_false_iff_not]
      intro hforall
      exact hnc (isna_iff.mpr (hforall c hc))
    · rw [List.all_eq_true] at hall
      symm
      rw [decide_eq_true_eq]
      intro c hc
      exact isna_iff.mp (hall c hc)
  by_cases hP : 1 < (t.filter (fun r => col0 r == k)).length ∧
      (∀ c ∈ ((t.filter (fun r => col0 r == k)).headD []).drop 2, c = Val.missing)
  · have hP2 : ∀ c ∈ (g0.drop 2), c = Val.missing := by
      have := hP.2
      rw [hgeq] at this
      exact this
    rw [if_pos hP]
    rw [show (List.drop 2 (k :: itemNameClean (Val.tup ((t.filter (fun r => col0 r == k)).map rowKey)) ::
      (List.range (w - 2)).map (fun j =>
        Val.tup ((t.filter (fun r => col0 r == k)).map
          (fun r => r.getD (j + 2) Val.missing))))).all tupFirstNa =
      decide (∀ c ∈ (g0.drop 2), c = Val.missing) from hallna]
    rw [if_pos (by
      rw [Bool.and_eq_true]
      exact ⟨decide_eq_true hP.1, decide_eq_true hP2⟩)]
    show Except.ok ([k, itemNameClean (Val.tup ((t.filter (fun r => col0 r == k)).map rowKey))] ++
      (List.map tupTail ((List.range (w - 2)).map (fun j =>
        Val.tup ((t.filter (fun r => col0 r == k)).map
          (fun r => r.getD (j + 2) Val.missing)))))) = _
    rw [List.map_map]
    rfl
  · have hP2 : ¬ (1 < (t.filter (fun r => col0 r == k)).length ∧
        (∀ c ∈ (g0.drop 2), c = Val.missing)) := by
      intro hc
      refine hP ⟨hc.1, ?_⟩
      rw [hgeq]
      exact hc.2
    rw [if_neg hP]
    rw [show (List.drop 2 (k :: itemNameClean (Val.tup ((t.filter (fun r => col0 r == k)).map rowKey)) ::
      (List.range (w - 2)).map (fun j =>
        Val.tup ((t.filter (fun r => col0 r == k)).map
          (fun r => r.getD (j + 2) Val.missing))))).all tupFirstNa =
      decide (∀ c ∈ (g0.drop 2), c = Val.missing) from hallna]
    rw [if_neg (by
      rw [Bool.and_eq_true]
      rintro ⟨hc1, hc2⟩
      exact hP2 ⟨of_decide_eq_true hc1, of_decide_eq_true hc2⟩)]

theorem checkTrimRow_bad (cs i : Nat) (r : Row) (h : rowShapeOk cs r = false) :
    checkTrimRow cs i r = Except.error
      (if ((r.drop cs).all isTup) = true then
        "Tuples in row " ++ toString i ++ " (item " ++ pyStr (col0 r) ++
          ") have different lengths."
      else
        "Row " ++ toString i ++ " (item " ++ pyStr (col0 r) ++
          ") contains non-tuple elements.") := by
  cases ha : (r.drop cs).all isTup with
  | false =>
    unfold checkTrimRow
    rw [ha]
    simp
  | true =>
    have hb : (((r.drop cs).map tupLen).all
        (fun n => n == ((r.drop cs).map tupLen).headD 0)) = false := by
      unfold rowShapeOk at h
      rw [ha] at h
      simpa using h
    unfold checkTrimRow
    rw [ha, hb]
    simp

theorem checkTrimRow_good (cs i : Nat) (r : Row) (h : rowShapeOk cs r = true) :
    ∃ r2, checkTrimRow cs i r = Except.ok r2 := by
  unfold rowShapeOk at h
  rw [Bool.and_eq_true] at h
  unfold checkTrimRow
  rw [h.1, h.2]
  cases hC : (((r.drop cs).map tupLen).all (fun n => decide (1 < n)) &&
      (r.drop cs).all tupFirstNa) with
  | false => exact ⟨r, by simp [hC]⟩
  | true => exact ⟨r.take cs ++ (r.drop cs).map tupTail, by simp [hC]⟩

theorem removeFirstAux_cons (cs n : Nat) (r : Row) (rs : Table) :
    removeFirstAux cs n (r :: rs) =
      match checkTrimRow cs n r with
      | Except.error e => Except.error e
      | Except.ok r2 =>
        match removeFirstAux cs (n + 1) rs with
        | Except.error e => Except.error e
        | Except.ok rest2 => Except.ok (r2 :: rest2) := by
  show (do
    let r2 ← checkTrimRow cs n r
    let rest ← removeFirstAux cs (n + 1) rs
    pure (r2 :: rest) : Except String Table) = _
  cases checkTrimRow cs n r <;> cases removeFirstAux cs (n + 1) rs <;> rfl

theorem removeFirstAux_ok_iff (cs : Nat) : ∀ (df : Table) (n : Nat),
    (∃ out, removeFirstAux cs n df = Except.ok out) ↔
      (∀ r ∈ df, rowShapeOk cs r = true) := by
  intro df
  induction df with
  | nil =>
    intro n
    exact ⟨fun _ r hr => absurd hr (List.not_mem_nil r), fun _ => ⟨[], rfl⟩⟩
  | cons r rest ih =>
    intro n
    rw [removeFirstAux_cons]
    constructor
    · rintro ⟨out, hout⟩
      cases hcheck : checkTrimRow cs n r with
      | error e =>
        rw [hcheck] at hout
        cases hout
      | ok r2 =>
        rw [hcheck] at hout
        cases haux : removeFirstAux cs (n + 1) rest with
        | error e =>
          rw [haux] at hout
          cases hout
        | ok out2 =>
          intro q hq
          rcases List.mem_cons.mp hq with rfl | hqr
          · by_contra hbad
            rw [Bool.not_eq_true] at hbad
            rw [checkTrimRow_bad cs n q hbad] at hcheck
            cases hcheck
          · exact (ih (n + 1)).mp ⟨out2, haux⟩ q hqr
    · intro hall
      obtain ⟨r2, hr2⟩ := checkTrimRow_good cs n r (hall r (List.mem_cons_self _ _))
      obtain ⟨out2, hout2⟩ :=
        (ih (n + 1)).mpr (fun q hq => hall q (List.mem_cons_of_mem _ hq))
      exact ⟨r2 :: out2, by rw [hr2, hout2]⟩

theorem removeFirstAux_first_bad (cs : Nat) : ∀ (df : Table) (n i : Nat),
    i < df.length → (∀ j, j < i → rowShapeOk cs (df.getD j []) = true) →
    rowShapeOk cs (df.getD i []) = false →
    removeFirstAux cs n df = Except.error
      (if (((df.getD i []).drop cs).all isTup) = true then
        "Tuples in row " ++ toString (n + i) ++ " (item " ++ pyStr (col0 (df.getD i [])) ++
          ") have different lengths."
      else
        "Row " ++ toString (n + i) ++ " (item " ++ pyStr (col0 (df.getD i [])) ++
          ") contains non-tuple elements.") := by
  intro df
  induction df with
  | nil =>
    intro n i hi
    simp at hi
  | cons r rest ih =>
    intro n i hi hprev hbad
    rw [removeFirstAux_cons]
    cases i with
    | zero =>
      simp only [List.getD_cons_zero, Nat.add_zero] at hbad ⊢
      rw [checkTrimRow_bad cs n r hbad]
    | succ i2 =>
      have hr_ok : rowShapeOk cs r = true := by
        simpa using hprev 0 (Nat.succ_pos i2)
      obtain ⟨r2, hr2⟩ := checkTrimRow_good cs n r hr_ok
      rw [hr2]
      have hrec := ih (n + 1) i2 (by simpa using hi)
        (fun j hj => by simpa using hprev (j + 1) (Nat.succ_lt_succ hj))
        (by simpa using hbad)
      rw [hrec]
      simp only [List.getD_cons_succ]
      rw [show n + 1 + i2 = n + (i2 + 1) from by omega]

/-! ## Structure of the combined comparison frame -/

theorem mem_combinedRows {spec1 spec2 : String} {t1 t2 : Table} {q : CRow} :
    q ∈ combinedRows spec1 spec2 t1 t2 ↔
      ∃ k, k ∈ t1.map rowKey ∧ k ∈ t2.map rowKey ∧
        (q = ⟨k, spec1, rowItem (findByKey t1 k),
              blankEq (rowVals (findByKey t1 k)) (rowVals (findByKey t2 k))⟩ ∨
         q = ⟨k, spec2, rowItem (findByKey t2 k),
              blankEq (rowVals (findByKey t2 k)) (rowVals (findByKey t1 k))⟩) := by
  unfold combinedRows
  simp only [List.mem_flatMap, List.mem_filter, mem_dedupFirst, List.mem_cons,
    List.mem_singleton, List.not_mem_nil, or_false, decide_eq_true_eq]
  constructor
  · rintro ⟨k, ⟨⟨hk1, hk2⟩, hq⟩⟩
    exact ⟨k, hk1, hk2, hq⟩
  · rintro ⟨k, hk1, hk2, hq⟩
    exact ⟨k, ⟨hk1, hk2⟩, hq⟩

theorem key_of_mem_combinedRows {spec1 spec2 : String} {t1 t2 : Table} {q : CRow}
    (h : q ∈ combinedRows spec1 spec2 t1 t2) :
    q.key ∈ t1.map rowKey ∧ q.key ∈ t2.map rowKey ∧
      (q = ⟨q.key, spec1, rowItem (findByKey t1 q.key),
            blankEq (rowVals (findByKey t1 q.key)) (rowVals (findByKey t2 q.key))⟩ ∨
       q = ⟨q.key, spec2, rowItem (findByKey t2 q.key),
            blankEq (rowVals (findByKey t2 q.key)) (rowVals (findByKey t1 q.key))⟩) := by
  rcases mem_combinedRows.mp h with ⟨k, hk1, hk2, hq⟩
  have hkey : q.key = k := by rcases hq with rfl | rfl <;> rfl
  subst hkey
  exact ⟨hk1, hk2, hq⟩

theorem pair_sublist_combinedRows {spec1 spec2 : String} {t1 t2 : Table} {k : Val}
    (hk1 : k ∈ t1.map rowKey) (hk2 : k ∈ t2.map rowKey) :
    List.Sublist
      [ CRow.mk k spec1 (rowItem (findByKey t1 k))
          (blankEq (rowVals (findByKey t1 k)) (rowVals (findByKey t2 k))),
        CRow.mk k spec2 (rowItem (findByKey t2 k))
          (blankEq (rowVals (findByKey t2 k)) (rowVals (findByKey t1 k))) ]
      (combinedRows spec1 spec2 t1 t2) := by
  unfold combinedRows
  have hkc : k ∈ (dedupFirst (t1.map rowKey)).filter (fun x => decide (x ∈ t2.map rowKey)) :=
    List.mem_filter.mpr ⟨mem_dedupFirst.mpr hk1, by simpa using hk2⟩
  rcases List.append_of_mem hkc with ⟨s, t, hst⟩
  rw [hst, List.flatMap_append, List.flatMap_cons]
  exact ((List.sublist_append_left _ _).trans (List.sublist_append_right _ _))

theorem compareSection_same_same (spec1 spec2 : String) (t1 t2 : Table) :
    (compareSection spec1 spec2 t1 t2).same_same_rows =
      (combinedRows spec1 spec2 t1 t2).filter
        (fun r => isDupVal (combinedRows spec1 spec2 t1 t2) r) := rfl

theorem compareSection_same_diff (spec1 spec2 : String) (t1 t2 : Table) :
    (compareSection spec1 spec2 t1 t2).same_diff =
      (combinedRows spec1 spec2 t1 t2).filter
        (fun r => !(isDupVal (combinedRows spec1 spec2 t1 t2) r)) := rfl

theorem compareSection_only1_def (spec1 spec2 : String) (t1 t2 : Table) :
    (compareSection spec1 spec2 t1 t2).only_1 =
      (t1.filter (fun r => decide (rowKey r ∉ t2.map rowKey))).map
        (fun r => (rowKey r, rowItem r)) := rfl

theorem compareSection_only2_def (spec1 spec2 : String) (t1 t2 : Table) :
    (compareSection spec1 spec2 t1 t2).only_2 =
      (t2.filter (fun r => decide (rowKey r ∉ t1.map rowKey))).map
        (fun r => (rowKey r, rowItem r)) := rfl

theorem mem_only1_keys {spec1 spec2 : String} {t1 t2 : Table} {k : Val} :
    k ∈ (compareSection spec1 spec2 t1 t2).only_1.map Prod.fst ↔
      (k ∈ t1.map rowKey ∧ k ∉ t2.map rowKey) := by
  rw [compareSection_only1_def, List.map_map]
  constructor
  · intro h
    rcases List.mem_map.mp h with ⟨r, hr, rfl⟩
    have hf := List.mem_filter.mp hr
    exact ⟨List.mem_map_of_mem rowKey hf.1, by simpa using hf.2⟩
  · rintro ⟨hk1, hk2⟩
    rcases List.mem_map.mp hk1 with ⟨r, hr, rfl⟩
    exact List.mem_map.mpr ⟨r, List.mem_filter.mpr ⟨hr, by simpa using hk2⟩, rfl⟩

theorem mem_only2_keys {spec1 spec2 : String} {t1 t2 : Table} {k : Val} :
    k ∈ (compareSection spec1 spec2 t1 t2).only_2.map Prod.fst ↔
      (k ∈ t2.map rowKey ∧ k ∉ t1.map rowKey) := by
  rw [compareSection_only2_def, List.map_map]
  constructor
  · intro h
    rcases List.mem_map.mp h with ⟨r, hr, rfl⟩
    have hf := List.mem_filter.mp hr
    exact ⟨List.mem_map_of_mem rowKey hf.1, by simpa using hf.2⟩
  · rintro ⟨hk1, hk2⟩
    rcases List.mem_map.mp hk1 with ⟨r, hr, rfl⟩
    exact List.mem_map.mpr ⟨r, List.mem_filter.mpr ⟨hr, by simpa using hk2⟩, rfl⟩

theorem mem_keys_filter_or {l : List CRow} {p : CRow → Bool} {k : Val} :
    (k ∈ (l.filter (fun r => p r)).map CRow.key ∨
      k ∈ (l.filter (fun r => !(p r))).map CRow.key) ↔ k ∈ l.map CRow.key := by
  simp only [List.mem_map, List.mem_filter]
  constructor
  · rintro (⟨q, ⟨hq, -⟩, rfl⟩ | ⟨q, ⟨hq, -⟩, rfl⟩) <;> exact ⟨q, hq, rfl⟩
  · rintro ⟨q, hq, rfl⟩
    cases hp : p q
    · exact Or.inr ⟨q, ⟨hq, by simp [hp]⟩, rfl⟩
    · exact Or.inl ⟨q, ⟨hq, hp⟩, rfl⟩

theorem mem_combined_keys {spec1 spec2 : String} {t1 t2 : Table} {k : Val} :
    k ∈ (combinedRows spec1 spec2 t1 t2).map CRow.key ↔
      (k ∈ t1.map rowKey ∧ k ∈ t2.map rowKey) := by
  constructor
  · intro h
    rcases List.mem_map.mp h with ⟨q, hq, rfl⟩
    exact ⟨(key_of_mem_combinedRows hq).1, (key_of_mem_combinedRows hq).2.1⟩
  · rintro ⟨hk1, hk2⟩
    exact List.mem_map.mpr ⟨⟨k, spec1, rowItem (findByKey t1 k),
        blankEq (rowVals (findByKey t1 k)) (rowVals (findByKey t2 k))⟩,
      mem_combinedRows.mpr ⟨k, hk1, hk2, Or.inl rfl⟩, rfl⟩

/-! ## Claims -/

/-- C5: for every pair of table sets whose section-identifier sets are not
identical, `by_item_names` fails with the section-mismatch error reporting
the symmetric difference of the two section sets, before producing any
partial comparison output (the check precedes all per-section work). -/
theorem C5_section_mismatch (c1 c2 : CASTMeta)
    (h : symmDiff (c1.data.map Prod.fst) (c2.data.map Prod.fst) ≠ []) :
    by_item_names c1 c2 =
      Except.error (symmDiff (c1.data.map Prod.fst) (c2.data.map Prod.fst)) := by
  have hkd : (symmDiff (c1.data.map Prod.fst) (c2.data.map Prod.fst)).isEmpty = false := by
    cases hv : symmDiff (c1.data.map Prod.fst) (c2.data.map Prod.fst) with
    | nil => exact absurd hv h
    | cons a l => rfl
  simp [by_item_names, hkd]

/-- Witness for C5: section sets `{A, B}` and `{A, C}` report `{B, C}`. -/
theorem C5_section_mismatch_witness :
    symmDiff (exSecAB.data.map Prod.fst) (exSecAC.data.map Prod.fst) ≠ [] ∧
      by_item_names exSecAB exSecAC = Except.error ["B", "C"] := by
  refine ⟨by decide, ?_⟩
  rw [C5_section_mismatch exSecAB exSecAC (by decide)]
  rfl

/-- C1 is false on the code: the differ keys rows by the `item_name` column
(`set_index('item_name')`), not by the `item` key.  Here the two inputs have
identical `item` columns (so the claimed `only_left` would be empty), yet the
produced `only_1` bucket is non-empty — and its single entry is keyed by the
left `item_name` `"A"` and carries the `item` column value `"1"`, the reverse
of the claimed keying. -/
theorem C1_counterexample :
    (compareSection "s1" "s2" exC1Left exC1Right).only_1 =
        [(Val.str "A", Val.str "1")] ∧
      exC1Left.map rowItem = exC1Right.map rowItem := by
  exact ⟨by decide, by decide⟩

/-- C1 (amended): the `only_1` bucket holds exactly the left rows whose
`item_name` label is absent from the right table, keyed by `item_name` and
carrying that row's `item` column value (symmetrically for `only_2`). -/
theorem C1_only_buckets (spec1 spec2 : String) (t1 t2 : Table) (p : Val × Val) :
    (p ∈ (compareSection spec1 spec2 t1 t2).only_1 ↔
      ∃ r ∈ t1, rowKey r ∉ t2.map rowKey ∧ p = (rowKey r, rowItem r)) ∧
    (p ∈ (compareSection spec1 spec2 t1 t2).only_2 ↔
      ∃ r ∈ t2, rowKey r ∉ t1.map rowKey ∧ p = (rowKey r, rowItem r)) := by
  constructor
  · simp only [compareSection, List.mem_map, List.mem_filter, decide_eq_true_eq]
    constructor
    · rintro ⟨r, ⟨hr, hn⟩, rfl⟩
      exact ⟨r, hr, hn, rfl⟩
    · rintro ⟨r, hr, hn, rfl⟩
      exact ⟨r, ⟨hr, hn⟩, rfl⟩
  · simp only [compareSection, List.mem_map, List.mem_filter, decide_eq_true_eq]
    constructor
    · rintro ⟨r, ⟨hr, hn⟩, rfl⟩
      exact ⟨r, hr, hn, rfl⟩
    · rintro ⟨r, hr, hn, rfl⟩
      exact ⟨r, ⟨hr, hn⟩, rfl⟩

/-- C2 is false on the code: the value-pair dedup marks rows individually,
so a common key's two emitted rows can land in different buckets.  Left has
items `X ↦ "a"`, `Y ↦ "a"`; right has `X ↦ "b"`, `Y ↦ "c"`.  The two left
rows are value-duplicates of each other (both `"a"`), the two right rows are
not, so key `X` contributes one row to `same_key_same_value` and one row to
`same_key_diff_value` — the key is duplicated across buckets (and the
double-emission is split, not kept inside the diff bucket). -/
theorem C2_counterexample :
    ((compareSection "s1" "s2" exSplitLeft exSplitRight).same_same_rows.filter
        (fun r => r.key == Val.str "X")).length = 1 ∧
      ((compareSection "s1" "s2" exSplitLeft exSplitRight).same_diff.filter
        (fun r => r.key == Val.str "X")).length = 1 := by
  exact ⟨by decide, by decide⟩

/-- C2 (amended): every `item_name` key appearing in either input's table for
a section appears in at least one of the four buckets; the `only` buckets
hold exactly the asymmetric keys; a key is in `same_key_same_value` or
`same_key_diff_value` exactly when it is common — but its two emitted rows
are bucketed row-by-row by the dedup, so a common key may appear in both of
those buckets at once. -/
theorem C2_partition (spec1 spec2 : String) (t1 t2 : Table)
    (h1 : (t1.map rowKey).Nodup) (h2 : (t2.map rowKey).Nodup) (k : Val)
    (hk : k ∈ t1.map rowKey ∨ k ∈ t2.map rowKey) :
    (k ∈ (compareSection spec1 spec2 t1 t2).only_1.map Prod.fst ∨
     k ∈ (compareSection spec1 spec2 t1 t2).only_2.map Prod.fst ∨
     k ∈ (compareSection spec1 spec2 t1 t2).same_same_rows.map CRow.key ∨
     k ∈ (compareSection spec1 spec2 t1 t2).same_diff.map CRow.key) ∧
    (k ∈ (compareSection spec1 spec2 t1 t2).only_1.map Prod.fst ↔
      (k ∈ t1.map rowKey ∧ k ∉ t2.map rowKey)) ∧
    (k ∈ (compareSection spec1 spec2 t1 t2).only_2.map Prod.fst ↔
      (k ∈ t2.map rowKey ∧ k ∉ t1.map rowKey)) ∧
    ((k ∈ (compareSection spec1 spec2 t1 t2).same_same_rows.map CRow.key ∨
      k ∈ (compareSection spec1 spec2 t1 t2).same_diff.map CRow.key) ↔
      (k ∈ t1.map rowKey ∧ k ∈ t2.map rowKey)) := by
  have hcomm : (k ∈ (compareSection spec1 spec2 t1 t2).same_same_rows.map CRow.key ∨
      k ∈ (compareSection spec1 spec2 t1 t2).same_diff.map CRow.key) ↔
      (k ∈ t1.map rowKey ∧ k ∈ t2.map rowKey) := by
    rw [compareSection_same_same, compareSection_same_diff, mem_keys_filter_or,
      mem_combined_keys]
  refine ⟨?_, mem_only1_keys, mem_only2_keys, hcomm⟩
  by_cases hk1 : k ∈ t1.map rowKey
  · by_cases hk2 : k ∈ t2.map rowKey
    · rcases hcomm.mpr ⟨hk1, hk2⟩ with h | h
      · exact Or.inr (Or.inr (Or.inl h))
      · exact Or.inr (Or.inr (Or.inr h))
    · exact Or.inl (mem_only1_keys.mpr ⟨hk1, hk2⟩)
  · rcases hk with h | hk2
    · exact absurd h hk1
    · exact Or.inr (Or.inl (mem_only2_keys.mpr ⟨hk2, hk1⟩))

/-- Witness for C2 (amended), at the split scenario with key `X`. -/
theorem C2_partition_witness :
    ((exSplitLeft.map rowKey).Nodup ∧ (exSplitRight.map rowKey).Nodup ∧
      Val.str "X" ∈ exSplitLeft.map rowKey) ∧
    (Val.str "X" ∈ (compareSection "s1" "s2" exSplitLeft exSplitRight).only_1.map Prod.fst ∨
     Val.str "X" ∈ (compareSection "s1" "s2" exSplitLeft exSplitRight).only_2.map Prod.fst ∨
     Val.str "X" ∈
       (compareSection "s1" "s2" exSplitLeft exSplitRight).same_same_rows.map CRow.key ∨
     Val.str "X" ∈
       (compareSection "s1" "s2" exSplitLeft exSplitRight).same_diff.map CRow.key) :=
  ⟨⟨by decide, by decide, by decide⟩,
    (C2_partition "s1" "s2" exSplitLeft exSplitRight (by decide) (by decide)
      (Val.str "X") (Or.inl (by decide))).1⟩

/-- C3: within a section's combined "different" frame, any two distinct rows
that agree on every column except the spec tag (same `item_name` label, same
`item` cell, same value cells) form a duplicate group of size at least two,
and the dedup (`duplicated(..., keep=False)`) excludes both from
`same_key_diff_value`; moreover, in the spec's concrete scenario — item `X`
differing with left `("5m","pixel")` / right `("10m","pixel")` and an
unrelated item `Y` differing with the identical value pair — every row is
excluded, leaving the bucket empty. -/
theorem C3_dedup_exclusion :
    (∀ (spec1 spec2 : String) (t1 t2 : Table) (r s : CRow),
      r ∈ combinedRows spec1 spec2 t1 t2 → s ∈ combinedRows spec1 spec2 t1 t2 →
      r ≠ s → r.key = s.key → r.item = s.item → r.vals = s.vals →
      r ∉ (compareSection spec1 spec2 t1 t2).same_diff ∧
      s ∉ (compareSection spec1 spec2 t1 t2).same_diff) ∧
    (compareSection "s1" "s2" exDedupLeft exDedupRight).same_diff = [] := by
  constructor
  · intro spec1 spec2 t1 t2 r s hr hs hne hkey hitem hvals
    have hdupr : isDupVal (combinedRows spec1 spec2 t1 t2) r = true := by
      unfold isDupVal
      refine decide_eq_true ?_
      exact two_le_filter_of_two_mem hr hs hne (by simp) (by simp [hvals])
    have hdups : isDupVal (combinedRows spec1 spec2 t1 t2) s = true := by
      unfold isDupVal
      refine decide_eq_true ?_
      exact two_le_filter_of_two_mem hr hs hne (by simp [hvals]) (by simp)
    constructor
    · rw [compareSection_same_diff]
      intro hmem
      have hflag := (List.mem_filter.mp hmem).2
      rw [hdupr] at hflag
      simp at hflag
    · rw [compareSection_same_diff]
      intro hmem
      have hflag := (List.mem_filter.mp hmem).2
      rw [hdups] at hflag
      simp at hflag
  · decide

/-- Witness for C3, at two combined rows of an equal item (they agree on
everything but the spec tag). -/
theorem C3_dedup_exclusion_witness :
    (CRow.mk (Val.str "A") "s1" (Val.str "1") [Val.missing, Val.missing] ∈
        combinedRows "s1" "s2" exEqualTable exEqualTable ∧
      CRow.mk (Val.str "A") "s2" (Val.str "1") [Val.missing, Val.missing] ∈
        combinedRows "s1" "s2" exEqualTable exEqualTable) ∧
    CRow.mk (Val.str "A") "s1" (Val.str "1") [Val.missing, Val.missing] ∉
      (compareSection "s1" "s2" exEqualTable exEqualTable).same_diff :=
  ⟨⟨by decide, by decide⟩,
    (C3_dedup_exclusion.1 "s1" "s2" exEqualTable exEqualTable
      (CRow.mk (Val.str "A") "s1" (Val.str "1") [Val.missing, Val.missing])
      (CRow.mk (Val.str "A") "s2" (Val.str "1") [Val.missing, Val.missing])
      (by decide) (by decide) (by decide) rfl rfl rfl).1⟩

/-- C6 is false on the code: a section whose candidate range has no
non-empty item-key cell does not raise — `first_valid_index` returns `None`,
`df.loc[None:last_row]` slices from the top, and the all-missing item keys
are stringified to `"nan"`.  Here normalization returns a table (keyed
`"nan"`) instead of failing. -/
theorem C6_counterexample :
    truncate_and_ffill [("s", exEmptyItems)] =
      Except.ok [("s", [[Val.str "nan", Val.str "x"]])] := by
  decide

/-- C6 (amended): on a section with at least one row, no non-empty item-key
cell anywhere, and no entirely-empty row, normalization succeeds (no
`MalformedTableError` exists in the code) and returns a table of the same
height whose item-key cells all hold the string `"nan"`. -/
theorem C6_empty_items_no_error (t : Table) (hne : t ≠ [])
    (hcol : ∀ r ∈ t, isna (col0 r) = true)
    (hrow : ∀ r ∈ t, allNaRow r = false) :
    ∃ t2, truncOne t = Except.ok t2 ∧ t2.length = t.length ∧
      ∀ r ∈ t2, col0 r = Val.str "nan" := by
  have hfv : firstValidIdx t = none := by
    unfold firstValidIdx
    rw [List.find?_eq_none]
    intro i hi
    rw [List.mem_range] at hi
    show ¬((decide (1 ≤ i) && !(isna (col0 (t.getD i [])))) = true)
    rw [hcol _ (getD_mem [] hi)]
    simp
  have hlvf : (List.range t.length).filter (fun i => !(isna (col0 (t.getD i [])))) = [] := by
    rw [List.filter_eq_nil_iff]
    intro i hi
    rw [List.mem_range] at hi
    show ¬((!(isna (col0 (t.getD i [])))) = true)
    rw [hcol _ (getD_mem [] hi)]
    simp
  have hlv : lastValidIdx t = none := by
    unfold lastValidIdx
    rw [hlvf]
    rfl
  have hemp : t.isEmpty = false := by
    cases t
    · exact absurd rfl hne
    · rfl
  have hany : ∀ i ∈ List.range t.length, ¬ (allNaRow (t.getD i []) = true) := by
    intro i hi
    rw [List.mem_range] at hi
    rw [hrow _ (getD_mem [] hi)]
    simp
  have hltr : truncLastRow t = Except.ok ((t.length : Int) - 1) := by
    unfold truncLastRow
    rw [hlv]
    rw [show (List.range t.length).filter
        (fun i => decide ((none : Option Nat).getD 0 ≤ i)) = List.range t.length from
      List.filter_eq_self.mpr (fun i _ => by simp)]
    rw [List.any_eq_false.mpr hany]
    simp [hemp]
  have hslice : ((List.range t.length).filter
      (fun i => decide ((0:Nat) ≤ i) && decide ((i : Int) ≤ (t.length : Int) - 1))).map
      (fun i => t.getD i []) = t := by
    rw [show (List.range t.length).filter
        (fun i => decide ((0:Nat) ≤ i) && decide ((i : Int) ≤ (t.length : Int) - 1)) =
        List.range t.length from List.filter_eq_self.mpr ?_]
    · exact range_map_getD_self [] t
    · intro i hi
      rw [List.mem_range] at hi
      simp only [Bool.and_eq_true, decide_eq_true_eq]
      exact ⟨Nat.zero_le i, by omega⟩
  have hkept : t.filter (fun r => !(allNaRow r)) = t := by
    rw [List.filter_eq_self]
    intro r hr
    simp [hrow r hr]
  have hff : ffill0 none t = t := ffill0_id_of_allNaCol0 t hcol
  have hbody : truncBody t 0 ((t.length : Int) - 1) =
      (t.map (fun r =>
        match r with
        | [] => []
        | c :: rest => Val.str (pyStr c) :: rest)).map (fun r => r.map blankCell) := by
    unfold truncBody
    rw [hslice, hkept, hff]
  refine ⟨truncBody t 0 ((t.length : Int) - 1), ?_, ?_, ?_⟩
  · unfold truncOne
    rw [hltr, hfv]
    rfl
  · rw [hbody]
    simp
  · rw [hbody]
    intro r hr
    rcases List.mem_map.mp hr with ⟨r1, hr1, rfl⟩
    rcases List.mem_map.mp hr1 with ⟨r0, hr0, rfl⟩
    cases r0 with
    | nil => exact absurd (hrow [] hr0) (by simp [allNaRow])
    | cons c rest =>
      have hc : isna c = true := by simpa [col0] using hcol _ hr0
      have hcm : c = Val.missing := by cases c <;> simp_all [isna]
      subst hcm
      have hb : blankCell (Val.str "nan") = Val.str "nan" := by decide
      show col0 (List.map blankCell (Val.str "nan" :: rest)) = Val.str "nan"
      simp [col0, hb]

/-- Witness for C6 (amended), at the one-row all-missing-key section. -/
theorem C6_empty_items_no_error_witness :
    (exEmptyItems ≠ [] ∧ (∀ r ∈ exEmptyItems, isna (col0 r) = true) ∧
      (∀ r ∈ exEmptyItems, allNaRow r = false)) ∧
    (∃ t2, truncOne exEmptyItems = Except.ok t2 ∧ t2.length = exEmptyItems.length ∧
      ∀ r ∈ t2, col0 r = Val.str "nan") :=
  ⟨⟨by decide, by decide, by decide⟩,
    C6_empty_items_no_error exEmptyItems (by decide) (by decide) (by decide)⟩

theorem pyStr_not_ws {c : Val} (h : isBlankStrVal c = false) :
    isWhitespaceOnly (pyStr c) = false := by
  cases c with
  | missing => decide
  | str s => simpa [isBlankStrVal, pyStr] using h
  | tup l =>
    show isWhitespaceOnly "(tuple)" = false
    decide

theorem truncBody_col0_nonmissing (t : Table) (fr : Nat) (lr : Int)
    (hws : ∀ r ∈ t, isBlankStrVal (col0 r) = false) :
    ∀ r ∈ truncBody t fr lr, isna (col0 r) = false := by
  intro r hr
  unfold truncBody at hr
  rcases List.mem_map.mp hr with ⟨r1, hr1, rfl⟩
  rcases List.mem_map.mp hr1 with ⟨r0, hr0, rfl⟩
  have hsub : ∀ q ∈ (((List.range t.length).filter
      (fun i => decide (fr ≤ i) && decide ((i : Int) ≤ lr))).map
      (fun i => t.getD i [])).filter (fun x => !(allNaRow x)), q ∈ t ∧ q ≠ [] := by
    intro q hq
    have hq1 := List.mem_filter.mp hq
    rcases List.mem_map.mp hq1.1 with ⟨i, hi, rfl⟩
    have hilt : i < t.length := List.mem_range.mp (List.mem_filter.mp hi).1
    refine ⟨getD_mem [] hilt, fun hnil => ?_⟩
    have hflag := hq1.2
    rw [hnil] at hflag
    simp [allNaRow] at hflag
  have hffP := ffill0_col0P (fun v => isBlankStrVal v = false) rfl
    ((((List.range t.length).filter
      (fun i => decide (fr ≤ i) && decide ((i : Int) ≤ lr))).map
      (fun i => t.getD i [])).filter (fun x => !(allNaRow x))) none
    (fun q hq => hws q (hsub q hq).1) (fun a ha => Option.noConfusion ha)
  have hffne := ffill0_ne_nil
    ((((List.range t.length).filter
      (fun i => decide (fr ≤ i) && decide ((i : Int) ≤ lr))).map
      (fun i => t.getD i [])).filter (fun x => !(allNaRow x))) none
    (fun q hq => (hsub q hq).2)
  cases r0 with
  | nil => exact absurd rfl (hffne [] hr0)
  | cons c rest =>
    have hP : isBlankStrVal c = false := by simpa [col0] using hffP _ hr0
    have hnw : isWhitespaceOnly (pyStr c) = false := pyStr_not_ws hP
    show isna (col0 (List.map blankCell (Val.str (pyStr c) :: rest))) = false
    simp [col0, blankCell, hnw, isna]

/-- C9 is false on the code: forward-fill runs before the whitespace-blanking
pass, so a whitespace-only item-key cell (which is not NaN and hence is
neither filled over nor propagated over) is rewritten to the missing marker
afterwards.  The normalized section below carries a missing item key in its
second row. -/
theorem C9_counterexample :
    truncate_and_ffill [("s", exWhitespaceItem)] =
        Except.ok [("s", [[Val.str "1", Val.str "A"], [Val.missing, Val.str "B"]])] ∧
      isna (col0 [Val.missing, Val.str "B"]) = true :=
  ⟨by decide, by decide⟩

/-- C9 (amended): provided no source item-key cell is an empty or
whitespace-only string, every row of the normalized table has a non-missing
item-key cell (source-missing keys are stringified to `"nan"`, filled keys
propagate).  The proviso is forced: blanking runs after forward-fill, so a
whitespace-only source key becomes a missing marker in the output. -/
theorem C9_item_filled (t : Table)
    (hws : ∀ r ∈ t, isBlankStrVal (col0 r) = false) :
    ∀ t2, truncOne t = Except.ok t2 → ∀ r ∈ t2, isna (col0 r) = false := by
  intro t2 h2
  unfold truncOne at h2
  cases hl : truncLastRow t with
  | error e =>
    rw [hl] at h2
    exact absurd h2 (by simp [Except.map])
  | ok lr =>
    rw [hl] at h2
    have hbody : truncBody t ((firstValidIdx t).getD 0) lr = t2 := by
      simpa [Except.map] using h2
    rw [← hbody]
    exact truncBody_col0_nonmissing t _ lr hws

/-- Witness for C9 (amended), at a section with no blank-string item cell. -/
theorem C9_item_filled_witness :
    (∀ r ∈ exC1Left, isBlankStrVal (col0 r) = false) ∧
    (∀ t2, truncOne exC1Left = Except.ok t2 → ∀ r ∈ t2, isna (col0 r) = false) :=
  ⟨by decide, C9_item_filled exC1Left (by decide)⟩

/-- C10: a common `item_name` key whose value cells are equal on both sides
is emitted into `same_key_same_value` as two rows, one tagged with each spec
identity, and those rows do not reproduce the shared values: equality is
detected on the `keep_equal=False` comparison, whose equal cells are blanked,
so every value cell of those rows is the missing marker (in particular every
value column the bucket's `dropna(axis=1, how='all')` keeps shows missing
there), and no row with that key reaches `same_key_diff_value`. -/
theorem C10_equal_common_item (spec1 spec2 : String) (t1 t2 : Table)
    (h1 : (t1.map rowKey).Nodup) (h2 : (t2.map rowKey).Nodup) (hs : spec1 ≠ spec2)
    (r1 r2 : Row) (hr1 : r1 ∈ t1) (hr2 : r2 ∈ t2)
    (hk : rowKey r1 = rowKey r2) (hv : rowVals r1 = rowVals r2) :
    (CRow.mk (rowKey r1) spec1 (rowItem r1)
        (List.replicate (rowVals r1).length Val.missing) ∈
      (compareSection spec1 spec2 t1 t2).same_same_rows) ∧
    (CRow.mk (rowKey r1) spec2 (rowItem r2)
        (List.replicate (rowVals r1).length Val.missing) ∈
      (compareSection spec1 spec2 t1 t2).same_same_rows) ∧
    (∀ q ∈ (compareSection spec1 spec2 t1 t2).same_same_rows,
      q.key = rowKey r1 → ∀ v ∈ q.vals, v = Val.missing) ∧
    (∀ q ∈ (compareSection spec1 spec2 t1 t2).same_diff, q.key ≠ rowKey r1) := by
  have hk1 : rowKey r1 ∈ t1.map rowKey := List.mem_map_of_mem rowKey hr1
  have hk2 : rowKey r1 ∈ t2.map rowKey := by
    rw [hk]
    exact List.mem_map_of_mem rowKey hr2
  have hf1 : findByKey t1 (rowKey r1) = r1 := findByKey_eq h1 hr1
  have hf2 : findByKey t2 (rowKey r1) = r2 := by
    rw [hk]
    exact findByKey_eq h2 hr2
  have hb1 : blankEq (rowVals (findByKey t1 (rowKey r1))) (rowVals (findByKey t2 (rowKey r1))) =
      List.replicate (rowVals r1).length Val.missing := by
    rw [hf1, hf2, ← hv, blankEq_self]
  have hb2 : blankEq (rowVals (findByKey t2 (rowKey r1))) (rowVals (findByKey t1 (rowKey r1))) =
      List.replicate (rowVals r1).length Val.missing := by
    rw [hf1, hf2, ← hv, blankEq_self]
  have hpair := @pair_sublist_combinedRows spec1 spec2 t1 t2 (rowKey r1) hk1 hk2
  rw [hb1, hb2, hf1, hf2] at hpair
  have hm1 : CRow.mk (rowKey r1) spec1 (rowItem r1)
      (List.replicate (rowVals r1).length Val.missing) ∈ combinedRows spec1 spec2 t1 t2 :=
    hpair.subset (List.mem_cons_self _ _)
  have hm2 : CRow.mk (rowKey r1) spec2 (rowItem r2)
      (List.replicate (rowVals r1).length Val.missing) ∈ combinedRows spec1 spec2 t1 t2 :=
    hpair.subset (List.mem_cons_of_mem _ (List.mem_cons_self _ _))
  have hdup : ∀ q : CRow, q.vals = List.replicate (rowVals r1).length Val.missing →
      isDupVal (combinedRows spec1 spec2 t1 t2) q = true := by
    intro q hq
    unfold isDupVal
    refine decide_eq_true ?_
    refine two_le_filter_of_pair hpair ?_ ?_ <;> simp [hq]
  have hkeyrows : ∀ q ∈ combinedRows spec1 spec2 t1 t2, q.key = rowKey r1 →
      q.vals = List.replicate (rowVals r1).length Val.missing := by
    intro q hq hqk
    rcases (key_of_mem_combinedRows hq).2.2 with hqe | hqe
    · have hv2 : q.vals =
          blankEq (rowVals (findByKey t1 q.key)) (rowVals (findByKey t2 q.key)) :=
        congrArg CRow.vals hqe
      rw [hqk] at hv2
      exact hv2.trans hb1
    · have hv2 : q.vals =
          blankEq (rowVals (findByKey t2 q.key)) (rowVals (findByKey t1 q.key)) :=
        congrArg CRow.vals hqe
      rw [hqk] at hv2
      exact hv2.trans hb2
  refine ⟨?_, ?_, ?_, ?_⟩
  · rw [compareSection_same_same]
    exact List.mem_filter.mpr ⟨hm1, hdup _ rfl⟩
  · rw [compareSection_same_same]
    exact List.mem_filter.mpr ⟨hm2, hdup _ rfl⟩
  · intro q hq hqk
    rw [compareSection_same_same] at hq
    have hqc := (List.mem_filter.mp hq).1
    intro v hvq
    rw [hkeyrows q hqc hqk] at hvq
    exact List.eq_of_mem_replicate hvq
  · intro q hq hqk
    rw [compareSection_same_diff] at hq
    have hqc := (List.mem_filter.mp hq).1
    have hflag := (List.mem_filter.mp hq).2
    rw [hdup q (hkeyrows q hqc hqk)] at hflag
    simp at hflag

/-- Witness for C10, at two identical one-row tables. -/
theorem C10_equal_common_item_witness :
    ((exEqualTable.map rowKey).Nodup ∧ ("s1" : String) ≠ "s2") ∧
    CRow.mk (Val.str "A") "s1" (Val.str "1") [Val.missing, Val.missing] ∈
      (compareSection "s1" "s2" exEqualTable exEqualTable).same_same_rows :=
  ⟨⟨by decide, by decide⟩, by
    have h := C10_equal_common_item "s1" "s2" exEqualTable exEqualTable
      (by decide) (by decide) (by decide)
      [Val.str "1", Val.str "A", Val.str "x", Val.str "y"]
      [Val.str "1", Val.str "A", Val.str "x", Val.str "y"]
      (List.mem_cons_self _ _) (List.mem_cons_self _ _) rfl rfl
    exact h.1⟩

/-- C4 is false on the code: re-running `compress_structure` on its own
output is not the identity, because `groupby(...).agg(lambda x: tuple(x))`
wraps every (already tuple-valued) attribute cell in a fresh one-element
tuple. -/
theorem C4_counterexample :
    compress_structure [("s", exCompressed)] ≠ Except.ok [("s", exCompressed)] := by
  decide

/-- C4 (amended): compressing an already-compressed table set (item keys
distinct and ascending — the form `compress_structure` itself outputs — with
truthy item-name cells) succeeds but returns a *changed* table: the item and
item-name columns are preserved while every attribute/requirement cell `v`
is wrapped into the singleton tuple `(v,)`. -/
theorem C4_recompress (t : Table)
    (hw : ∀ r ∈ t, r.length = (t.headD []).length)
    (hsorted : strictSortedB (t.map col0) = true)
    (hnodup : (t.map col0).Nodup)
    (hmiss : ∀ r ∈ t, isna (col0 r) = false)
    (hname : ∀ r ∈ t, pyTruthy (rowKey r) = true) :
    compressOne t =
      Except.ok (t.map (fun r => r.take 2 ++ (r.drop 2).map (fun v => Val.tup [v]))) := by
  unfold compressOne
  rw [filter_nonmissing_id hmiss, dedupFirst_eq_self hnodup, sortVals_eq_self hsorted,
    List.map_map, List.map_map]
  have hcomp : ∀ r ∈ t, ((modifyAt itemNameClean 1 ∘ aggRow t (t.headD []).length) ∘ col0) r =
      r.take 2 ++ (r.drop 2).map (fun v => Val.tup [v]) := by
    intro r hr
    have hne : r ≠ [] := by
      intro hnil
      have hmr := hmiss r hr
      rw [hnil] at hmr
      simp [col0, isna] at hmr
    show modifyAt itemNameClean 1 (aggRow t (t.headD []).length (col0 r)) =
      r.take 2 ++ (r.drop 2).map (fun v => Val.tup [v])
    rw [aggRow_singleton (t.headD []).length hnodup hr (hw r hr) hne]
    exact modifyAt_clean_wrap (hname r hr) hne
  rw [List.map_congr_left hcomp]
  unfold remove_first_elem_per_row
  refine removeFirstAux_map_ok 2 _ _ t ?_ 0
  intro r _ i
  have hshape : ∀ c ∈ (r.take 2 ++ (r.drop 2).map (fun v => Val.tup [v])).drop 2,
      ∃ l, c = Val.tup l ∧ l.length = 1 := by
    intro c hc
    rw [wrapRow_drop2] at hc
    rcases List.mem_map.mp hc with ⟨v, _, rfl⟩
    exact ⟨[v], rfl, rfl⟩
  have h := checkTrimRow_uniform i (r.take 2 ++ (r.drop 2).map (fun v => Val.tup [v])) 1 hshape
  simpa using h

/-- C7: for every item group, compression aggregates each non-item column
into the tuple of the group's cells in row order; when the group spans more
than one row and the group's *first* row is the missing marker in every
attribute/requirement column, the first element is dropped from every
attribute tuple, and otherwise (single-row group, or only some columns
missing in the first row) the tuples are left untrimmed; the `item_name`
tuple is separately collapsed by `x[0] if x[0] else None`. -/
theorem C7_placeholder_trim (t : Table)
    (hw2 : 2 ≤ (t.headD []).length)
    (huni : ∀ r ∈ t, r.length = (t.headD []).length) :
    compressOne t = Except.ok
      ((sortVals (dedupFirst ((t.map col0).filter (fun v => !(isna v))))).map
        (fun k =>
          if 1 < (t.filter (fun r => col0 r == k)).length ∧
              (∀ c ∈ ((t.filter (fun r => col0 r == k)).headD []).drop 2, c = Val.missing) then
            k :: itemNameClean (Val.tup ((t.filter (fun r => col0 r == k)).map rowKey)) ::
              (List.range ((t.headD []).length - 2)).map (fun j =>
                Val.tup (((t.filter (fun r => col0 r == k)).map
                  (fun r => r.getD (j + 2) Val.missing)).tail))
          else
            k :: itemNameClean (Val.tup ((t.filter (fun r => col0 r == k)).map rowKey)) ::
              (List.range ((t.headD []).length - 2)).map (fun j =>
                Val.tup ((t.filter (fun r => col0 r == k)).map
                  (fun r => r.getD (j + 2) Val.missing))))) := by
  unfold compressOne
  rw [List.map_map]
  unfold remove_first_elem_per_row
  refine removeFirstAux_map_ok 2 _ _ _ ?_ 0
  intro k hk i
  have hkmem : k ∈ t.map col0 := by
    have h1 := mem_sortVals.mp hk
    have h2 := mem_dedupFirst.mp h1
    exact (List.mem_filter.mp h2).1
  rcases List.mem_map.mp hkmem with ⟨r0, hr0, rfl⟩
  have hgne : t.filter (fun r => col0 r == col0 r0) ≠ [] := by
    have hmem : r0 ∈ t.filter (fun r => col0 r == col0 r0) :=
      List.mem_filter.mpr ⟨hr0, by simp⟩
    exact List.ne_nil_of_mem hmem
  exact compress_row_spec t (t.headD []).length (col0 r0) i hw2 huni hgne

/-- Witness for C7, at the spec's trim scenario: one item over two physical
rows whose first row is missing in both attribute columns; the tuples
`(missing, "numeric")` and `(missing, "radiometric")` collapse to
`("numeric",)` and `("radiometric",)`. -/
theorem C7_placeholder_trim_witness :
    (2 ≤ (exTrimTable.headD []).length ∧
      (∀ r ∈ exTrimTable, r.length = (exTrimTable.headD []).length)) ∧
    compressOne exTrimTable = Except.ok
      [[Val.str "1", Val.str "A", Val.tup [Val.str "numeric"],
        Val.tup [Val.str "radiometric"]]] :=
  ⟨⟨by decide, by decide⟩, by
    rw [C7_placeholder_trim exTrimTable (by decide) (by decide)]
    decide⟩

/-- C8 is false as stated: the shape error does not name the offending
section.  The check lives in `_remove_first_elem_per_row`, which receives no
section at all, so whatever section the grouped table came from — here
"Geometric Corrections" — cannot appear in the message; the message names
only the row index and the item. -/
theorem C8_counterexample :
    remove_first_elem_per_row 2 exBadShape =
        Except.error "Tuples in row 0 (item i1) have different lengths." ∧
      strContains "Tuples in row 0 (item i1) have different lengths." "i1" = true ∧
      strContains "Tuples in row 0 (item i1) have different lengths."
        "Geometric Corrections" = false := by
  refine ⟨by decide, by decide, by decide⟩

/-- C8 (amended): the row-shape check fails exactly when some row's cells
from the start column on are not all tuple-typed or are tuples of unequal
lengths; the error raised at the first offending row names that row's index
and its item cell — but no section (the function has no section input). -/
theorem C8_shape_check (cs : Nat) (df : Table) :
    ((∃ out, remove_first_elem_per_row cs df = Except.ok out) ↔
      (∀ r ∈ df, rowShapeOk cs r = true)) ∧
    (∀ i, i < df.length → (∀ j, j < i → rowShapeOk cs (df.getD j []) = true) →
      rowShapeOk cs (df.getD i []) = false →
      remove_first_elem_per_row cs df = Except.error
        (if (((df.getD i []).drop cs).all isTup) = true then
          "Tuples in row " ++ toString i ++ " (item " ++ pyStr (col0 (df.getD i [])) ++
            ") have different lengths."
        else
          "Row " ++ toString i ++ " (item " ++ pyStr (col0 (df.getD i [])) ++
            ") contains non-tuple elements.")) := by
  constructor
  · exact removeFirstAux_ok_iff cs df 0
  · intro i hi hprev hbad
    have h := removeFirstAux_first_bad cs df 0 i hi hprev hbad
    rw [Nat.zero_add] at h
    exact h

/-- Witness for C8 (amended), at the concrete unequal-lengths row. -/
theorem C8_shape_check_witness :
    (0 < exBadShape.length ∧ rowShapeOk 2 (exBadShape.getD 0 []) = false) ∧
    remove_first_elem_per_row 2 exBadShape =
      Except.error "Tuples in row 0 (item i1) have different lengths." :=
  ⟨⟨by decide, by decide⟩, by
    have h := (C8_shape_check 2 exBadShape).2 0 (by decide)
      (fun j hj => absurd hj (Nat.not_lt_zero j)) (by decide)
    simpa using h⟩

/-- Witness for C4 (amended), at a one-row compressed table. -/
theorem C4_recompress_witness :
    ((∀ r ∈ exCompressed, r.length = (exCompressed.headD []).length) ∧
      strictSortedB (exCompressed.map col0) = true ∧ (exCompressed.map col0).Nodup ∧
      (∀ r ∈ exCompressed, isna (col0 r) = false) ∧
      (∀ r ∈ exCompressed, pyTruthy (rowKey r) = true)) ∧
    compressOne exCompressed = Except.ok (exCompressed.map
      (fun r => r.take 2 ++ (r.drop 2).map (fun v => Val.tup [v]))) :=
  ⟨⟨by decide, by decide, by decide, by decide, by decide⟩,
    C4_recompress exCompressed (by decide) (by decide) (by decide) (by decide) (by decide)⟩

end Cast
